import Mathlib

/-!
Shallow embedding of `pdftexfigures/main.py` (watch-and-convert utility).

Python strings are modelled as Lean `String` (a wrapper around `List Char`);
Python `str.split(sep)` / `sep.join(...)` for a one-character separator are
modelled character-wise by `splitCh` / `joinCh`.  `pathlib.Path` accessors
(`suffix`, `stem`, `name`, `parent`) are modelled on the raw path string,
following the pathlib rules for the last `'.'` of the final component
(path normalisation of trailing slashes or `..` is not modelled; all inputs
of interest are ordinary absolute file paths).

Side effects (subprocess invocations, clipboard writes) are modelled as an
explicit trace of `Effect`s; the ambient state read by the code (the
persisted roots file, the current working directory, the output of
`inkscape --version`, the converter's exit status) is passed explicitly.
-/

/-- Characterwise model of Python `s.split(sep)` for a single-character
separator: `"".split(sep) = [""]`, and each separator occurrence starts a
new (possibly empty) piece. -/
def splitCh (sep : Char) : List Char → List (List Char)
  | [] => [[]]
  | c :: cs =>
    match splitCh sep cs with
    | [] => [[]]
    | p :: ps => if c = sep then [] :: p :: ps else (c :: p) :: ps

/-- Characterwise model of Python `sep.join(pieces)` for a single-character
separator. -/
def joinCh (sep : Char) : List (List Char) → List Char
  | [] => []
  | [x] => x
  | x :: xs => x ++ sep :: joinCh sep xs

/-- String-level `split` (Python `s.split(sep)` with a 1-char separator). -/
def pySplit (sep : Char) (s : String) : List String :=
  (splitCh sep s.data).map String.mk

/-- String-level `join` (Python `sep.join(l)` with a 1-char separator). -/
def pyJoin (sep : Char) (l : List String) : String :=
  String.mk (joinCh sep (l.map String.data))

/-- Last component of a path, as in `pathlib.Path(s).name`: everything after
the final `'/'`. -/
def pyName (s : String) : String :=
  String.mk (s.data.foldl (fun acc c => if c = '/' then [] else acc ++ [c]) [])

/-- Split a character list around its last occurrence of `sep`:
`lastSplit sep l = some (before, after)` with `l = before ++ sep :: after`
and `sep ∉ after`; `none` when `sep` does not occur. -/
def lastSplit (sep : Char) : List Char → Option (List Char × List Char)
  | [] => none
  | c :: cs =>
    match lastSplit sep cs with
    | some (a, b) => some (c :: a, b)
    | none => if c = sep then some ([], cs) else none

/-- `pathlib.Path(s).suffix`: the final extension of the last component,
including the dot; empty when the last dot is leading or trailing. -/
def pySuffix (s : String) : String :=
  match lastSplit '.' (pyName s).data with
  | some (bef, aft) => if bef ≠ [] ∧ aft ≠ [] then String.mk ('.' :: aft) else ""
  | none => ""

/-- `pathlib.Path(s).stem`: the last component without its `pySuffix`. -/
def pyStem (s : String) : String :=
  match lastSplit '.' (pyName s).data with
  | some (bef, aft) => if bef ≠ [] ∧ aft ≠ [] then String.mk bef else pyName s
  | none => pyName s

/-- `pathlib.Path(s).parent` (no normalisation beyond the pathlib rules for
a root or relative single component). -/
def pyParent (s : String) : String :=
  match lastSplit '/' s.data with
  | some ([], _) => "/"
  | some (bef, _) => String.mk bef
  | none => "."

/-- `pathlib` path join `a / b` for an ordinary relative last component. -/
def pathJoin (a b : String) : String :=
  if a = "/" then a ++ b else a ++ "/" ++ b

/-- Model of Python `str.title()` restricted to ASCII letters: a letter is
uppercased when the previous character is not a letter, lowercased
otherwise; other characters are kept and act as word boundaries. -/
def pyTitle (s : String) : String :=
  String.mk (s.data.foldl
    (fun (acc : List Char × Bool) c =>
      (acc.1 ++ [if c.isAlpha then (if acc.2 then c.toLower else c.toUpper) else c],
       c.isAlpha))
    ([], false)).1

/-- `beautify` (main.py line 38): replace `'_'` and `'-'` by spaces, then
title-case.  Python `str.replace` with single-character arguments is a
characterwise map. -/
def beautify (name : String) : String :=
  pyTitle (String.mk (name.data.map fun c => if c = '_' ∨ c = '-' then ' ' else c))

/-- `latex_template` (main.py line 42): the inclusion snippet placed on the
clipboard, six lines joined with newlines. -/
def latex_template (name title : String) : String :=
  "\\begin\x7bfigure\x7d[ht]\n    \\centering\n    \\incfig\x7b" ++ name ++
  "\x7d\n    \\caption\x7b" ++ title ++ "\x7d\n    \\label\x7bfig:" ++ name ++
  "\x7d\n\\end\x7bfigure\x7d"

/-- Characters matched by the Python regex class `[0-9.]`. -/
def isVersChar (c : Char) : Bool := c.isDigit || c = '.'

/-- First maximal run of `[0-9.]` characters, i.e.
`re.findall(r"[0-9.]+", s)[0]` (main.py line 156); `none` models the
`IndexError` when no run exists. -/
def firstNumRun : List Char → Option (List Char)
  | [] => none
  | c :: cs =>
    if isVersChar c then some (c :: cs.takeWhile isVersChar) else firstNumRun cs

/-- Python `int(part)` for the version parts: defined exactly on nonempty
all-digit strings (`none` models the `ValueError` otherwise). -/
def pyInt (l : List Char) : Option Nat :=
  if l ≠ [] ∧ l.all Char.isDigit then
    some (l.foldl (fun n c => 10 * n + (c.toNat - 48)) 0)
  else none

/-- Version parsing in `convert_svg_to_pdf_tex` (main.py lines 156-162):
first `[0-9.]+` run, split on `'.'`, each part through `int`, right-padded
with zeros to length 3. -/
def parseInkscapeVersion (s : String) : Option (List Nat) :=
  match firstNumRun s.data with
  | none => none
  | some run =>
    match (splitCh '.' run).mapM pyInt with
    | none => none
    | some parts => some (parts ++ List.replicate (3 - parts.length) 0)

/-- Python list comparison `a < b` (lexicographic, shorter prefix smaller),
used for `inkscape_version_number < [1, 0, 0]` (main.py line 165). -/
def pyListLt : List Nat → List Nat → Bool
  | [], [] => false
  | [], _ :: _ => true
  | _ :: _, [] => false
  | a :: as_, b :: bs => if a < b then true else if b < a then false else pyListLt as_ bs

/-- The converter command line (main.py lines 165-187): legacy layout for
versions below `[1, 0, 0]`, modern layout otherwise. -/
def inkscapeCommand (v : List Nat) (filepath pdf_path : String) : List String :=
  if pyListLt v [1, 0, 0] then
    ["inkscape", "--export-area-page", "--export-dpi", "300",
     "--export-pdf", pdf_path, "--export-latex", filepath]
  else
    ["inkscape", filepath, "--export-area-page", "--export-dpi", "300",
     "--export-type=pdf", "--export-latex", "--export-filename", pdf_path]

/-- Externally visible side effects of the conversion path. -/
inductive Effect where
  | runCmd (cmd : List String)
  | logError (code : Int)
  | afdesignExport (path : String)
  | clipboard (text : String)
deriving DecidableEq

/-- Ambient external state read by `convert_svg_to_pdf_tex`: the output of
`inkscape --version` and the converter subprocess's exit status. -/
structure ExtEnv where
  inkscape_version : String
  returncode : Int
deriving DecidableEq

/-- `convert_svg_to_pdf_tex` (main.py lines 136-201) as an effect trace;
`none` models an uncaught exception from version parsing.  Non-`.svg`
inputs return immediately (empty trace); otherwise the converter command
runs, a non-zero exit status is logged, and the inclusion snippet is
copied to the clipboard unconditionally. -/
def convert_svg_to_pdf_tex (env : ExtEnv) (filepath : String) : Option (List Effect) :=
  if pySuffix filepath ≠ ".svg" then some []
  else
    let pdf_path := pathJoin (pyParent filepath) (pyStem filepath ++ ".pdf")
    let name := pyStem filepath
    match parseInkscapeVersion env.inkscape_version with
    | none => none
    | some v =>
      some ([Effect.runCmd (inkscapeCommand v filepath pdf_path)]
        ++ (if env.returncode ≠ 0 then [Effect.logError env.returncode] else [])
        ++ [Effect.clipboard (latex_template name (beautify name))])

/-- `maybe_recompile_figure` (main.py lines 204-230) as an effect trace.
Mirrors the source exactly, including the guard `filepath.suffix != ".svg"`
in front of the `convert_svg_to_pdf_tex` call. -/
def maybe_recompile_figure (env : ExtEnv) (filepath : String) : Option (List Effect) :=
  if ¬ (pySuffix filepath = ".svg" ∨ pySuffix filepath = ".afdesign") then some []
  else
    let e1 := if pySuffix filepath = ".afdesign" then [Effect.afdesignExport filepath] else []
    match (if pySuffix filepath ≠ ".svg" then convert_svg_to_pdf_tex env filepath
           else some []) with
    | none => none
    | some e2 =>
      some (e1 ++ e2 ++
        [Effect.clipboard (latex_template (pyStem filepath) (beautify (pyStem filepath)))])

/-- The converter invocations contained in an effect trace. -/
def isConverterInvocation : Effect → Bool
  | Effect.runCmd _ => true
  | _ => false

/-- Filter a trace down to its converter invocations. -/
def converterInvocations (evs : List Effect) : List Effect :=
  evs.filter isConverterInvocation

/-!
## The roots store (`get_roots` / `add_root`, main.py lines 89-104)

The persisted store is the raw text content of the roots file; the current
working directory is passed explicitly.
-/

/-- The read side of `get_roots`: `roots_file.read_text().split("\n")` with
empty entries filtered out — the entries actually persisted in the store. -/
def persistedRoots (store : String) : List String :=
  (pySplit '\n' store).filter (fun r => r != "")

/-- `get_roots` (main.py lines 99-104): persisted entries plus the current
working directory when absent. -/
def get_roots (cwd store : String) : List String :=
  let ans := persistedRoots store
  if cwd ∈ ans then ans else ans ++ [cwd]

/-- `add_root` (main.py lines 89-96): no-op when `get_roots` already lists
the path, else append and rewrite the store newline-joined. -/
def add_root (cwd store path : String) : String :=
  let roots := get_roots cwd store
  if path ∈ roots then store
  else pyJoin '\n' (roots ++ [path])

/-!
## The debouncer and the two watch-daemon backends

`watch_daemon_fswatch` (main.py lines 305-346) keeps a table
`pending_timers : path → threading.Timer`; each timer fires
`debounce_seconds` after it was started, unless cancelled first.  The model
uses integer timestamps (milliseconds): the code's `debounce_seconds = 1.0`
(a float, one second) is `debounce_delay_ms = 1000`.  A timer carries the
path, its absolute fire time, and a unique id (creation order), so that a
fired trigger is attributable to the event that scheduled it.  Timers whose
fire time has passed fire before the next line is processed (`fireDue`);
per §5 of the design a cancelled timer never fires.
-/

/-- A pending `threading.Timer` for a path: fires at `fireAt` unless
cancelled; `id` records creation order. -/
structure PTimer where
  path : String
  fireAt : Int
  id : Nat
deriving DecidableEq

/-- State of the debouncing fswatch loop: the `pending_timers` table, the
trace of fired triggers (each firing invokes `maybe_recompile_figure`), and
the next fresh timer id. -/
structure DebState where
  pending : List PTimer
  fired : List PTimer
  next : Nat
deriving DecidableEq

/-- The code's `debounce_seconds = 1.0` (one second), in milliseconds. -/
def debounce_delay_ms : Int := 1000

/-- Initial state: no pending timers, nothing fired. -/
def debInit : DebState := ⟨[], [], 0⟩

/-- Is the timer due at time `t`? -/
def isDue (t : Int) (tm : PTimer) : Bool := tm.fireAt ≤ t

/-- Let every timer whose fire time has passed fire: it leaves the pending
table (`del pending_timers[filepath]`) and invokes the ConversionTrigger
(enters `fired`). -/
def fireDue (t : Int) (st : DebState) : DebState :=
  { pending := st.pending.filter (fun tm => ! isDue t tm),
    fired := st.fired ++ st.pending.filter (isDue t),
    next := st.next }

/-- Processing one non-config line at time `t` (main.py lines 338-346):
cancel any existing timer for this path, then schedule a fresh timer
`D` after `t`. -/
def on_event (D : Int) (st : DebState) (t : Int) (p : String) : DebState :=
  let st1 := fireDue t st
  { pending := st1.pending.filter (fun tm => ! (tm.path == p)) ++ [⟨p, t + D, st1.next⟩],
    fired := st1.fired,
    next := st1.next + 1 }

/-- Processing a roots-file line at time `t` (main.py lines 328-336): every
pending timer is cancelled and the table cleared before breaking out to
rebuild the watches. -/
def rebuild_cancel_all (t : Int) (st : DebState) : DebState :=
  let st1 := fireDue t st
  { pending := [], fired := st1.fired, next := st1.next }

/-- Process a sequence of timestamped non-config events. -/
def runEvents (D : Int) (st : DebState) (evs : List (Int × String)) : DebState :=
  evs.foldl (fun s e => on_event D s e.1 e.2) st

/-- Let time run to infinity: every still-pending timer fires. -/
def drainAll (st : DebState) : DebState :=
  { pending := [], fired := st.fired ++ st.pending, next := st.next }

/-- Outcome of one iteration of the fswatch inner loop. -/
inductive FswatchOutcome where
  | rebuildBreak (st : DebState)
  | continueLoop (st : DebState)
deriving DecidableEq

/-- One iteration of the fswatch inner loop (main.py lines 326-346): a line
equal to the roots-file path breaks out to rebuild after cancelling all
timers; any other line goes to the debouncer. -/
def fswatch_handle_line (D : Int) (rootsFilePath : String) (st : DebState)
    (t : Int) (line : String) : FswatchOutcome :=
  if line = rootsFilePath then FswatchOutcome.rebuildBreak (rebuild_cancel_all t st)
  else FswatchOutcome.continueLoop (on_event D st t line)

/-- Outcome of one inotify event (main.py lines 253-271). -/
inductive InotifyOutcome where
  | rebuild
  | handled (effects : List Effect)
  | crashed
deriving DecidableEq

/-- One event of the inotify loop (main.py lines 253-271): an event on the
roots-file watch breaks out to rebuild; any other event is dispatched
directly to `maybe_recompile_figure (Path(path) / filename)` — there is no
debouncing in this backend.  `crashed` models an uncaught exception. -/
def inotify_handle_event (env : ExtEnv) (rootsFilePath path fname : String) :
    InotifyOutcome :=
  if path = rootsFilePath then InotifyOutcome.rebuild
  else
    match maybe_recompile_figure env (pathJoin path fname) with
    | some evs => InotifyOutcome.handled evs
    | none => InotifyOutcome.crashed

/-- Watch registration (main.py lines 247-251): each root is registered
with the inotify object inside `try/except`; a failing root is logged and
skipped, and the loop continues with the remaining roots.  `ok r` tells
whether `i.add_watch r` succeeds; the result is the list of successfully
registered roots. -/
def add_watches (ok : String → Bool) : List String → List String
  | [] => []
  | r :: rs => if ok r then r :: add_watches ok rs else add_watches ok rs

/-!
## Lemmas about the characterwise split/join pair
-/

theorem splitCh_ne_nil (sep : Char) (l : List Char) : splitCh sep l ≠ [] := by
  induction l with
  | nil => simp [splitCh]
  | cons c cs ih =>
    simp only [splitCh]
    cases h : splitCh sep cs with
    | nil => exact absurd h ih
    | cons p ps => by_cases hc : c = sep <;> simp [hc]

theorem mem_splitCh_not_sep (sep : Char) (l : List Char) :
    ∀ p ∈ splitCh sep l, sep ∉ p := by
  induction l with
  | nil =>
    intro p hp
    simp [splitCh] at hp
    simp [hp]
  | cons c cs ih =>
    intro p hp
    cases h : splitCh sep cs with
    | nil => exact absurd h (splitCh_ne_nil sep cs)
    | cons q qs =>
      have hsp : p ∈ if c = sep then [] :: q :: qs else (c :: q) :: qs := by
        simpa only [splitCh, h] using hp
      by_cases hc : c = sep
      · rw [if_pos hc] at hsp
        rcases List.mem_cons.1 hsp with h1 | h1
        · rw [h1]; exact List.not_mem_nil sep
        · exact ih p (by rw [h]; exact h1)
      · rw [if_neg hc] at hsp
        rcases List.mem_cons.1 hsp with h1 | h1
        · have hq : sep ∉ q := ih q (by rw [h]; exact List.mem_cons_self q qs)
          rw [h1]
          intro hmem
          rcases List.mem_cons.1 hmem with he | he
          · exact hc he.symm
          · exact hq he
        · exact ih p (by rw [h]; exact List.mem_cons_of_mem q h1)

theorem splitCh_of_not_mem (sep : Char) (l : List Char) (h : sep ∉ l) :
    splitCh sep l = [l] := by
  induction l with
  | nil => rfl
  | cons c cs ih =>
    have hc : ¬ c = sep := fun e => h (e ▸ List.mem_cons_self c cs)
    have hcs : sep ∉ cs := fun m => h (List.mem_cons_of_mem c m)
    simp only [splitCh, ih hcs]
    rw [if_neg hc]

theorem splitCh_append_sep (sep : Char) (x r : List Char) (hx : sep ∉ x) :
    splitCh sep (x ++ sep :: r) = x :: splitCh sep r := by
  induction x with
  | nil =>
    simp only [List.nil_append, splitCh]
    cases h : splitCh sep r with
    | nil => exact absurd h (splitCh_ne_nil sep r)
    | cons p ps => simp
  | cons c cs ih =>
    have hc : ¬ c = sep := fun e => hx (e ▸ List.mem_cons_self c cs)
    have hcs : sep ∉ cs := fun m => hx (List.mem_cons_of_mem c m)
    have hred : splitCh sep ((c :: cs) ++ sep :: r)
        = match splitCh sep (cs ++ sep :: r) with
          | [] => [[]]
          | p :: ps => if c = sep then [] :: p :: ps else (c :: p) :: ps := rfl
    rw [hred, ih hcs]
    simp only [if_neg hc]

theorem splitCh_joinCh (sep : Char) :
    ∀ l : List (List Char), l ≠ [] → (∀ x ∈ l, sep ∉ x) →
      splitCh sep (joinCh sep l) = l
  | [], h, _ => absurd rfl h
  | [x], _, hx => by
    simp only [joinCh]
    exact splitCh_of_not_mem sep x (hx x (List.mem_singleton_self x))
  | x :: y :: rest, _, hx => by
    show splitCh sep (x ++ sep :: joinCh sep (y :: rest)) = x :: y :: rest
    rw [splitCh_append_sep sep x _ (hx x (List.mem_cons_self x _))]
    rw [splitCh_joinCh sep (y :: rest) (by simp)
      (fun z hz => hx z (List.mem_cons_of_mem x hz))]

theorem string_mk_data (s : String) : String.mk s.data = s := rfl

theorem pySplit_pyJoin (sep : Char) (l : List String) (hne : l ≠ [])
    (h : ∀ x ∈ l, sep ∉ x.data) : pySplit sep (pyJoin sep l) = l := by
  unfold pySplit pyJoin
  rw [show (String.mk (joinCh sep (l.map String.data))).data
      = joinCh sep (l.map String.data) from rfl]
  rw [splitCh_joinCh sep (l.map String.data) (by simpa using hne)
    (by
      intro x hx
      rcases List.mem_map.1 hx with ⟨s, hs, rfl⟩
      exact h s hs)]
  rw [List.map_map]
  simp [Function.comp_def, string_mk_data]

/-!
## Lemmas about the roots store
-/

theorem persistedRoots_no_newline (store x : String)
    (hx : x ∈ persistedRoots store) : '\n' ∉ x.data := by
  unfold persistedRoots at hx
  have hx' := List.mem_of_mem_filter hx
  rcases List.mem_map.1 hx' with ⟨p, hp, rfl⟩
  exact mem_splitCh_not_sep '\n' store.data p hp

theorem persistedRoots_ne_empty (store x : String)
    (hx : x ∈ persistedRoots store) : x ≠ "" := by
  unfold persistedRoots at hx
  have := (List.mem_filter.1 hx).2
  simpa using this

theorem mem_get_roots_cwd (cwd store : String) : cwd ∈ get_roots cwd store := by
  simp only [get_roots]
  by_cases h : cwd ∈ persistedRoots store
  · rw [if_pos h]; exact h
  · rw [if_neg h]; exact List.mem_append_right _ (List.mem_singleton_self cwd)

theorem mem_get_roots_cases (cwd store x : String) (hx : x ∈ get_roots cwd store) :
    x ∈ persistedRoots store ∨ x = cwd := by
  simp only [get_roots] at hx
  by_cases h : cwd ∈ persistedRoots store
  · rw [if_pos h] at hx; exact Or.inl hx
  · rw [if_neg h] at hx
    rcases List.mem_append.1 hx with h1 | h1
    · exact Or.inl h1
    · exact Or.inr (List.mem_singleton.1 h1)

theorem mem_persisted_get_roots (cwd store x : String)
    (hx : x ∈ persistedRoots store) : x ∈ get_roots cwd store := by
  simp only [get_roots]
  by_cases h : cwd ∈ persistedRoots store
  · rw [if_pos h]; exact hx
  · rw [if_neg h]; exact List.mem_append_left _ hx

theorem persistedRoots_add_root (cwd store path : String)
    (hcnl : '\n' ∉ cwd.data) (hcne : cwd ≠ "")
    (hpnl : '\n' ∉ path.data) (hpne : path ≠ "")
    (hnotin : path ∉ get_roots cwd store) :
    persistedRoots (add_root cwd store path) = get_roots cwd store ++ [path] := by
  have hne : get_roots cwd store ++ [path] ≠ [] := by simp
  have hnl : ∀ x ∈ get_roots cwd store ++ [path], '\n' ∉ x.data := by
    intro x hx
    rcases List.mem_append.1 hx with h1 | h1
    · rcases mem_get_roots_cases _ _ _ h1 with h2 | h2
      · exact persistedRoots_no_newline _ _ h2
      · rw [h2]; exact hcnl
    · rw [List.mem_singleton.1 h1]; exact hpnl
  have hno : ∀ x ∈ get_roots cwd store ++ [path], x ≠ "" := by
    intro x hx
    rcases List.mem_append.1 hx with h1 | h1
    · rcases mem_get_roots_cases _ _ _ h1 with h2 | h2
      · exact persistedRoots_ne_empty _ _ h2
      · rw [h2]; exact hcne
    · rw [List.mem_singleton.1 h1]; exact hpne
  simp only [add_root]
  rw [if_neg hnotin]
  unfold persistedRoots
  rw [pySplit_pyJoin '\n' _ hne hnl]
  rw [List.filter_eq_self.2 (fun a ha => bne_iff_ne.2 (hno a ha))]

/-!
## Lemmas about the debouncer
-/

theorem runEvents_cons (D : Int) (st : DebState) (t : Int) (p : String)
    (evs : List (Int × String)) :
    runEvents D st ((t, p) :: evs) = runEvents D (on_event D st t p) evs := rfl

theorem on_event_single_path (D : Int) (p : String) (t u : Int) (F : List PTimer)
    (k : Nat) (h : u < t + D) :
    on_event D ⟨[⟨p, t + D, k⟩], F, k + 1⟩ u p = ⟨[⟨p, u + D, k + 1⟩], F, k + 1 + 1⟩ := by
  have hd : isDue u ⟨p, t + D, k⟩ = false := by
    simp only [isDue, decide_eq_false_iff_not]
    omega
  simp [on_event, fireDue, hd, List.filter_cons]

theorem runEvents_burst (D : Int) (p : String) :
    ∀ (ts : List Int) (t : Int) (F : List PTimer) (k : Nat),
      List.Chain' (fun a b => a ≤ b ∧ b < a + D) (t :: ts) →
      runEvents D ⟨[⟨p, t + D, k⟩], F, k + 1⟩ (ts.map fun u => (u, p))
        = ⟨[⟨p, ts.getLastD t + D, k + ts.length⟩], F, k + ts.length + 1⟩
  | [], t, F, k, _ => by simp [runEvents, List.getLastD]
  | u :: us, t, F, k, hch => by
    have h1 : u < t + D := (List.chain'_cons.1 hch).1.2
    have h2 : List.Chain' (fun a b => a ≤ b ∧ b < a + D) (u :: us) :=
      (List.chain'_cons.1 hch).2
    rw [List.map_cons, runEvents_cons, on_event_single_path D p t u F k h1]
    rw [runEvents_burst D p us u F (k + 1) h2]
    simp only [DebState.mk.injEq, PTimer.mk.injEq, List.cons.injEq,
      List.getLastD_cons, List.length_cons, and_true, true_and, eq_self_iff_true]
    omega

theorem fired_mem_sources (D : Int) :
    ∀ (evs : List (Int × String)) (st : DebState) (tm : PTimer),
      tm ∈ (drainAll (runEvents D st evs)).fired →
      tm ∈ st.fired ∨ tm ∈ st.pending ∨ st.next ≤ tm.id
  | [], st, tm, h => by
    simp only [drainAll, runEvents, List.foldl_nil] at h
    rcases List.mem_append.1 h with h1 | h1
    · exact Or.inl h1
    · exact Or.inr (Or.inl h1)
  | (t, p) :: evs, st, tm, h => by
    rw [runEvents_cons] at h
    rcases fired_mem_sources D evs (on_event D st t p) tm h with h1 | h1 | h1
    · simp only [on_event, fireDue] at h1
      rcases List.mem_append.1 h1 with h2 | h2
      · exact Or.inl h2
      · exact Or.inr (Or.inl (List.mem_of_mem_filter h2))
    · simp only [on_event, fireDue] at h1
      rcases List.mem_append.1 h1 with h2 | h2
      · exact Or.inr (Or.inl (List.mem_of_mem_filter (List.mem_of_mem_filter h2)))
      · have he : tm = ⟨p, t + D, st.next⟩ := List.mem_singleton.1 h2
        exact Or.inr (Or.inr (le_of_eq (by rw [he])))
    · simp only [on_event, fireDue] at h1
      exact Or.inr (Or.inr (by omega))

/-- Normal form of `maybe_recompile_figure`: because the source guards the
`convert_svg_to_pdf_tex` call with `filepath.suffix != ".svg"` and
`convert_svg_to_pdf_tex` itself returns immediately unless the suffix is
`".svg"`, the converter contributes no effects on any input; only the
afdesign export and the final clipboard write remain. -/
theorem maybe_recompile_figure_eq (env : ExtEnv) (fp : String) :
    maybe_recompile_figure env fp =
      if pySuffix fp = ".svg" ∨ pySuffix fp = ".afdesign" then
        some ((if pySuffix fp = ".afdesign" then [Effect.afdesignExport fp] else [])
          ++ [Effect.clipboard (latex_template (pyStem fp) (beautify (pyStem fp)))])
      else some [] := by
  by_cases h1 : pySuffix fp = ".svg"
  · have h2 : ¬ pySuffix fp = ".afdesign" := by rw [h1]; decide
    simp [maybe_recompile_figure, h1, h2]
  · by_cases h2 : pySuffix fp = ".afdesign"
    · simp [maybe_recompile_figure, convert_svg_to_pdf_tex, h1, h2]
    · simp [maybe_recompile_figure, h1, h2]

/-!
## Claim theorems
-/

/-- C7: for the converter version strings `"0.92.4"`, `"1.1-dev"` and
`"1.0rc1"`, the parsed major/minor/patch triples (right-padded with zeros
to length 3) are `[0,92,4]`, `[1,1,0]` and `[1,0,0]`; the legacy argument
layout is chosen exactly when the triple is below `(1,0,0)` in Python list
order, so the first string selects the legacy layout and the latter two
select the modern layout. -/
theorem inkscape_version_parse_and_layout :
    parseInkscapeVersion "0.92.4" = some [0, 92, 4]
    ∧ parseInkscapeVersion "1.1-dev" = some [1, 1, 0]
    ∧ parseInkscapeVersion "1.0rc1" = some [1, 0, 0]
    ∧ pyListLt [0, 92, 4] [1, 0, 0] = true
    ∧ pyListLt [1, 1, 0] [1, 0, 0] = false
    ∧ pyListLt [1, 0, 0] [1, 0, 0] = false
    ∧ (∀ fp pdf : String, inkscapeCommand [0, 92, 4] fp pdf
        = ["inkscape", "--export-area-page", "--export-dpi", "300",
           "--export-pdf", pdf, "--export-latex", fp])
    ∧ (∀ fp pdf : String, inkscapeCommand [1, 1, 0] fp pdf
        = ["inkscape", fp, "--export-area-page", "--export-dpi", "300",
           "--export-type=pdf", "--export-latex", "--export-filename", pdf])
    ∧ (∀ fp pdf : String, inkscapeCommand [1, 0, 0] fp pdf
        = ["inkscape", fp, "--export-area-page", "--export-dpi", "300",
           "--export-type=pdf", "--export-latex", "--export-filename", pdf]) := by
  refine ⟨by decide, by decide, by decide, by decide, by decide, by decide, ?_, ?_, ?_⟩
  all_goals
    intro fp pdf
    unfold inkscapeCommand
    first
      | rw [if_pos (by decide)]
      | rw [if_neg (by decide)]

/-- C8: a stabilized change event whose path extension is neither `.svg`
nor `.afdesign` produces no effects at all: no converter invocation, no
clipboard write. -/
theorem unsupported_extension_ignored (env : ExtEnv) (fp : String)
    (h1 : pySuffix fp ≠ ".svg") (h2 : pySuffix fp ≠ ".afdesign") :
    maybe_recompile_figure env fp = some [] := by
  rw [maybe_recompile_figure_eq]
  rw [if_neg (by rintro (h | h) <;> [exact h1 h; exact h2 h])]

/-- Witness for C8 at the path `/figs/notes.txt` from the spec. -/
theorem unsupported_extension_ignored_witness :
    maybe_recompile_figure ⟨"Inkscape 1.0.2", 0⟩ "/figs/notes.txt" = some [] :=
  unsupported_extension_ignored ⟨"Inkscape 1.0.2", 0⟩ "/figs/notes.txt"
    (by decide) (by decide)

/-- C10: for every path with a supported extension (`.svg` or `.afdesign`)
`maybe_recompile_figure` writes the inclusion snippet to the clipboard
unconditionally while invoking no converter at all (for any environment,
hence for any converter exit status); and even inside
`convert_svg_to_pdf_tex` itself the clipboard write happens for every exit
status, including non-zero ones.  A clipboard write therefore does not
imply a successful (or any) conversion. -/
theorem clipboard_write_unconditional :
    (∀ (env : ExtEnv) (fp : String),
        pySuffix fp = ".svg" ∨ pySuffix fp = ".afdesign" →
        maybe_recompile_figure env fp
          = some ((if pySuffix fp = ".afdesign" then [Effect.afdesignExport fp] else [])
              ++ [Effect.clipboard (latex_template (pyStem fp) (beautify (pyStem fp)))])
        ∧ converterInvocations ((maybe_recompile_figure env fp).getD []) = [])
    ∧ (∀ (env : ExtEnv) (fp : String) (v : List Nat),
        pySuffix fp = ".svg" →
        parseInkscapeVersion env.inkscape_version = some v →
        Effect.clipboard (latex_template (pyStem fp) (beautify (pyStem fp)))
          ∈ (convert_svg_to_pdf_tex env fp).getD []) := by
  constructor
  · intro env fp h
    have he : maybe_recompile_figure env fp
        = some ((if pySuffix fp = ".afdesign" then [Effect.afdesignExport fp] else [])
            ++ [Effect.clipboard (latex_template (pyStem fp) (beautify (pyStem fp)))]) := by
      rw [maybe_recompile_figure_eq, if_pos h]
    refine ⟨he, ?_⟩
    rw [he]
    by_cases haf : pySuffix fp = ".afdesign" <;>
      simp [haf, converterInvocations, isConverterInvocation]
  · intro env fp v h hv
    have hg : ¬ pySuffix fp ≠ ".svg" := by simp [h]
    simp only [convert_svg_to_pdf_tex, if_neg hg, hv]
    simp

/-- Witness for C10: an `.svg` path with converter exit status 2. -/
theorem clipboard_write_unconditional_witness :
    maybe_recompile_figure ⟨"Inkscape 0.92.4 (unknown)", 2⟩ "/figs/diagram.svg"
      = some ((if pySuffix "/figs/diagram.svg" = ".afdesign"
            then [Effect.afdesignExport "/figs/diagram.svg"] else [])
          ++ [Effect.clipboard (latex_template (pyStem "/figs/diagram.svg")
                (beautify (pyStem "/figs/diagram.svg")))])
    ∧ converterInvocations
        ((maybe_recompile_figure ⟨"Inkscape 0.92.4 (unknown)", 2⟩ "/figs/diagram.svg").getD [])
      = []
    ∧ Effect.clipboard (latex_template (pyStem "/figs/diagram.svg")
          (beautify (pyStem "/figs/diagram.svg")))
        ∈ (convert_svg_to_pdf_tex ⟨"Inkscape 0.92.4 (unknown)", 2⟩ "/figs/diagram.svg").getD [] :=
  ⟨(clipboard_write_unconditional.1 ⟨"Inkscape 0.92.4 (unknown)", 2⟩ "/figs/diagram.svg"
      (by decide)).1,
   (clipboard_write_unconditional.1 ⟨"Inkscape 0.92.4 (unknown)", 2⟩ "/figs/diagram.svg"
      (by decide)).2,
   clipboard_write_unconditional.2 ⟨"Inkscape 0.92.4 (unknown)", 2⟩ "/figs/diagram.svg"
      [0, 92, 4] (by decide) (by decide)⟩

/-- C1 (evaluation at the failing input): in the end-to-end scenario —
three write events for `/figs/diagram.svg` 100 ms apart, debounce delay
1000 ms — the debouncer produces exactly one stabilized trigger for the
path at 1200 ms, but the trigger's dispatch through
`maybe_recompile_figure` performs ZERO converter invocations (the guard
`filepath.suffix != ".svg"` on main.py line 225 skips
`convert_svg_to_pdf_tex` for every `.svg` path), while the clipboard still
receives the snippet referencing name `diagram` and title `"Diagram"`.
The claim (and the function's own docstring) requires exactly one
converter invocation here. -/
theorem svg_scenario_one_trigger_no_converter_run :
    (drainAll (runEvents 1000 debInit
        [(0, "/figs/diagram.svg"), (100, "/figs/diagram.svg"), (200, "/figs/diagram.svg")])).fired
      = [⟨"/figs/diagram.svg", 1200, 2⟩]
    ∧ maybe_recompile_figure ⟨"Inkscape 1.0.2 (e86c8708, 2021-01-15)", 0⟩ "/figs/diagram.svg"
      = some [Effect.clipboard (latex_template "diagram" "Diagram")]
    ∧ converterInvocations
        ((maybe_recompile_figure ⟨"Inkscape 1.0.2 (e86c8708, 2021-01-15)", 0⟩
            "/figs/diagram.svg").getD [])
      = [] := by decide

/-- C4 counterexample: in the native inotify backend a non-config event is
NOT forwarded to any debouncer — `maybe_recompile_figure` runs
synchronously in the event loop, so its conversion-path effects (here the
clipboard write) appear in the very step that handles the event, with no
pending timer ever created; this backend has no pending-timer table at
all. -/
theorem inotify_direct_dispatch_cex :
    inotify_handle_event ⟨"Inkscape 1.0.2", 0⟩
        "/Users/marcos/.config/pdftex-figures/roots" "/figs" "diagram.svg"
      = InotifyOutcome.handled [Effect.clipboard (latex_template "diagram" "Diagram")] := by
  decide

/-- C4 amended: in both backends an event whose path equals the roots-file
path triggers the rebuild transition; otherwise the polling fswatch
backend forwards the line to the debouncer (`on_event`), while the native
inotify backend dispatches `Path(path)/filename` directly to the
ConversionTrigger (`maybe_recompile_figure`) with no debouncing. -/
theorem event_dispatch_by_backend :
    (∀ (env : ExtEnv) (cfg fname : String),
        inotify_handle_event env cfg cfg fname = InotifyOutcome.rebuild)
    ∧ (∀ (env : ExtEnv) (cfg path fname : String), path ≠ cfg →
        inotify_handle_event env cfg path fname
          = InotifyOutcome.handled
              ((maybe_recompile_figure env (pathJoin path fname)).getD []))
    ∧ (∀ (D t : Int) (cfg : String) (st : DebState),
        fswatch_handle_line D cfg st t cfg
          = FswatchOutcome.rebuildBreak (rebuild_cancel_all t st))
    ∧ (∀ (D t : Int) (cfg line : String) (st : DebState), line ≠ cfg →
        fswatch_handle_line D cfg st t line
          = FswatchOutcome.continueLoop (on_event D st t line)) := by
  refine ⟨?_, ?_, ?_, ?_⟩
  · intro env cfg fname
    simp [inotify_handle_event]
  · intro env cfg path fname hne
    simp only [inotify_handle_event, if_neg hne]
    rw [maybe_recompile_figure_eq]
    by_cases h : pySuffix (pathJoin path fname) = ".svg"
        ∨ pySuffix (pathJoin path fname) = ".afdesign"
    · rw [if_pos h]; rfl
    · rw [if_neg h]; rfl
  · intro D t cfg st
    simp [fswatch_handle_line]
  · intro D t cfg line st hne
    simp [fswatch_handle_line, hne]

/-- Witness for C4 amended at concrete inputs for all four branches. -/
theorem event_dispatch_by_backend_witness :
    inotify_handle_event ⟨"Inkscape 1.0.2", 0⟩ "/cfg/roots" "/cfg/roots" ""
      = InotifyOutcome.rebuild
    ∧ inotify_handle_event ⟨"Inkscape 1.0.2", 0⟩ "/cfg/roots" "/figs" "d.svg"
      = InotifyOutcome.handled
          ((maybe_recompile_figure ⟨"Inkscape 1.0.2", 0⟩ (pathJoin "/figs" "d.svg")).getD [])
    ∧ fswatch_handle_line 1000 "/cfg/roots" debInit 0 "/cfg/roots"
      = FswatchOutcome.rebuildBreak (rebuild_cancel_all 0 debInit)
    ∧ fswatch_handle_line 1000 "/cfg/roots" debInit 0 "/figs/d.svg"
      = FswatchOutcome.continueLoop (on_event 1000 debInit 0 "/figs/d.svg") :=
  ⟨event_dispatch_by_backend.1 ⟨"Inkscape 1.0.2", 0⟩ "/cfg/roots" "",
   event_dispatch_by_backend.2.1 ⟨"Inkscape 1.0.2", 0⟩ "/cfg/roots" "/figs" "d.svg" (by decide),
   event_dispatch_by_backend.2.2.1 1000 0 "/cfg/roots" debInit,
   event_dispatch_by_backend.2.2.2 1000 0 "/cfg/roots" "/figs/d.svg" debInit (by decide)⟩

/-- C2: for every burst of `N = ts.length + 1 ≥ 1` events for the same
path, each arriving no earlier than and strictly within `D` of the
previous one, the debouncer fires exactly one trigger for that path, timed
`D` after the last event of the burst (the single fired timer is the one
scheduled by the last event); and an event for path `p` never cancels or
reschedules a pending timer for a different path: such a timer survives
`on_event` unchanged. -/
theorem debounce_coalescing_and_isolation :
    (∀ (D : Int) (p : String) (t : Int) (ts : List Int),
        List.Chain' (fun a b => a ≤ b ∧ b < a + D) (t :: ts) →
        (drainAll (runEvents D debInit ((t :: ts).map fun u => (u, p)))).fired
          = [⟨p, ts.getLastD t + D, ts.length⟩])
    ∧ (∀ (D : Int) (st : DebState) (t : Int) (p : String) (tm : PTimer),
        tm ∈ st.pending → tm.path ≠ p → t < tm.fireAt →
        tm ∈ (on_event D st t p).pending) := by
  constructor
  · intro D p t ts hch
    rw [List.map_cons, runEvents_cons]
    have h0 : on_event D debInit t p = ⟨[⟨p, t + D, 0⟩], [], 1⟩ := by
      simp [on_event, fireDue, debInit]
    rw [h0, runEvents_burst D p ts t [] 0 hch]
    simp [drainAll]
  · intro D st t p tm hmem hpath hlt
    have hdue : (! isDue t tm) = true := by
      simp only [isDue, Bool.not_eq_true', decide_eq_false_iff_not]
      omega
    have hpeq : (! (tm.path == p)) = true := by
      simp only [Bool.not_eq_true', beq_eq_false_iff_ne, ne_eq]
      exact hpath
    simp only [on_event, fireDue]
    exact List.mem_append_left _
      (List.mem_filter.2 ⟨List.mem_filter.2 ⟨hmem, hdue⟩, hpeq⟩)

/-- Witness for C2: three events 100 ms apart for `/figs/diagram.svg`
(delay 1000 ms) fire exactly one trigger at 1200 ms; a pending timer for a
different path survives an event for `/figs/diagram.svg`. -/
theorem debounce_coalescing_and_isolation_witness :
    (drainAll (runEvents 1000 debInit
        (((0 : Int) :: [100, 200]).map fun u => (u, "/figs/diagram.svg")))).fired
      = [⟨"/figs/diagram.svg", ([100, 200] : List Int).getLastD 0 + 1000,
          ([100, 200] : List Int).length⟩]
    ∧ (⟨"/figs/other.svg", 900, 0⟩ : PTimer)
        ∈ (on_event 1000 ⟨[⟨"/figs/other.svg", 900, 0⟩], [], 1⟩ 50 "/figs/diagram.svg").pending :=
  ⟨debounce_coalescing_and_isolation.1 1000 "/figs/diagram.svg" 0 [100, 200]
     (List.chain'_cons.2 ⟨⟨by decide, by decide⟩,
       List.chain'_cons.2 ⟨⟨by decide, by decide⟩, List.chain'_singleton 200⟩⟩),
   debounce_coalescing_and_isolation.2 1000 ⟨[⟨"/figs/other.svg", 900, 0⟩], [], 1⟩ 50
     "/figs/diagram.svg" ⟨"/figs/other.svg", 900, 0⟩ (by decide) (by decide) (by decide)⟩

/-- C5: a rebuild (roots-file event) at time `t` cancels every pending
timer and clears the pending table; a timer that was pending and not yet
due never subsequently invokes the ConversionTrigger, no matter what
events are processed afterwards (new timers carry fresh ids). -/
theorem rebuild_cancels_pending_timers (D t : Int) (st : DebState) (tm : PTimer)
    (evs : List (Int × String))
    (_hpend : tm ∈ st.pending) (hlive : t < tm.fireAt)
    (hnotf : tm ∉ st.fired) (hid : tm.id < st.next) :
    (rebuild_cancel_all t st).pending = []
    ∧ tm ∉ (drainAll (runEvents D (rebuild_cancel_all t st) evs)).fired := by
  refine ⟨rfl, fun hcon => ?_⟩
  rcases fired_mem_sources D evs (rebuild_cancel_all t st) tm hcon with h1 | h1 | h1
  · simp only [rebuild_cancel_all, fireDue] at h1
    rcases List.mem_append.1 h1 with h2 | h2
    · exact hnotf h2
    · have hd := (List.mem_filter.1 h2).2
      simp only [isDue, decide_eq_true_eq] at hd
      omega
  · simp only [rebuild_cancel_all] at h1
    exact absurd h1 (List.not_mem_nil tm)
  · simp only [rebuild_cancel_all, fireDue] at h1
    omega

/-- Witness for C5: a rebuild at 200 ms cancels the timer pending for
1100 ms, which never fires even though the loop keeps processing events. -/
theorem rebuild_cancels_pending_timers_witness :
    (rebuild_cancel_all 200 ⟨[⟨"/figs/d.svg", 1100, 0⟩], [], 1⟩).pending = []
    ∧ (⟨"/figs/d.svg", 1100, 0⟩ : PTimer)
        ∉ (drainAll (runEvents 1000
            (rebuild_cancel_all 200 ⟨[⟨"/figs/d.svg", 1100, 0⟩], [], 1⟩)
            [(300, "/figs/e.svg")])).fired :=
  rebuild_cancels_pending_timers 1000 200 ⟨[⟨"/figs/d.svg", 1100, 0⟩], [], 1⟩
    ⟨"/figs/d.svg", 1100, 0⟩ [(300, "/figs/e.svg")]
    (by decide) (by decide) (by decide) (by decide)

/-- C3 counterexample: with cwd `/c` and persisted store `"/a"` (which
does not list `/c`), `add_root` of the fresh path `/b` rewrites the store
to `"/a\n/c\n/b"` — the synthetic cwd membership has been persisted by an
operation, contradicting the claim that no operation persists it. -/
theorem add_root_persists_synthetic_cwd_cex :
    "/c" ∉ persistedRoots "/a"
    ∧ add_root "/c" "/a" "/b" = "/a\n/c\n/b"
    ∧ "/c" ∈ persistedRoots (add_root "/c" "/a" "/b") := by decide

/-- C3 amended: `get_roots` always reports the current working directory
even when the persisted store does not list it, and `get_roots` itself is
a pure read (it returns a list and writes nothing); however `add_root` of
a fresh path rewrites the store from the `get_roots` output, and the
rewritten store then persists the synthetic cwd entry. -/
theorem cwd_membership_and_add_persistence :
    (∀ cwd store : String, cwd ∈ get_roots cwd store)
    ∧ (∀ cwd store path : String,
        '\n' ∉ cwd.data → cwd ≠ "" → '\n' ∉ path.data → path ≠ "" →
        path ∉ get_roots cwd store →
        cwd ∈ persistedRoots (add_root cwd store path)) := by
  refine ⟨mem_get_roots_cwd, ?_⟩
  intro cwd store path h1 h2 h3 h4 h5
  rw [persistedRoots_add_root cwd store path h1 h2 h3 h4 h5]
  exact List.mem_append_left _ (mem_get_roots_cwd cwd store)

/-- Witness for C3 amended: cwd `/c`, store `"/a"`, fresh path `/b`. -/
theorem cwd_membership_and_add_persistence_witness :
    "/c" ∈ get_roots "/c" "/a"
    ∧ "/c" ∈ persistedRoots (add_root "/c" "/a" "/b") :=
  ⟨cwd_membership_and_add_persistence.1 "/c" "/a",
   cwd_membership_and_add_persistence.2 "/c" "/a" "/b"
     (by decide) (by decide) (by decide) (by decide) (by decide)⟩

/-- C6 counterexample: adding the current working directory `/c` to an
empty store is a no-op both times (`get_roots` already reports it
synthetically), so after two `add` calls the persisted store holds ZERO
occurrences of `/c`, not exactly one. -/
theorem add_root_cwd_not_persisted_cex :
    add_root "/c" "" "/c" = ""
    ∧ add_root "/c" (add_root "/c" "" "/c") "/c" = ""
    ∧ List.count "/c" (persistedRoots (add_root "/c" (add_root "/c" "" "/c") "/c")) = 0 := by
  decide

/-- C6 amended: `add_root` is a no-op whenever `get_roots` already reports
the path — including the synthetically-present cwd, for which two adds
leave zero persisted occurrences; for a path `get_roots` does not report,
adding twice equals adding once, the persisted store becomes the
`get_roots` output with the path appended at the end (insertion order),
and it then holds exactly one occurrence of the path. -/
theorem add_root_idempotent_amended :
    ∀ cwd store path : String,
      '\n' ∉ cwd.data → cwd ≠ "" → '\n' ∉ path.data → path ≠ "" →
      (path ∈ get_roots cwd store → add_root cwd store path = store)
      ∧ add_root cwd (add_root cwd store path) path = add_root cwd store path
      ∧ (path ∉ get_roots cwd store →
          persistedRoots (add_root cwd store path) = get_roots cwd store ++ [path]
          ∧ List.count path (persistedRoots (add_root cwd store path)) = 1) := by
  intro cwd store path h1 h2 h3 h4
  have hnoop : ∀ s : String, path ∈ get_roots cwd s → add_root cwd s path = s := by
    intro s h
    simp only [add_root]
    rw [if_pos h]
  refine ⟨hnoop store, ?_, ?_⟩
  · by_cases h : path ∈ get_roots cwd store
    · have e := hnoop store h
      rw [e]
      exact e
    · have hper := persistedRoots_add_root cwd store path h1 h2 h3 h4 h
      have hmem : path ∈ persistedRoots (add_root cwd store path) := by
        rw [hper]
        exact List.mem_append_right _ (List.mem_singleton_self path)
      exact hnoop _ (mem_persisted_get_roots _ _ _ hmem)
  · intro h
    have hper := persistedRoots_add_root cwd store path h1 h2 h3 h4 h
    refine ⟨hper, ?_⟩
    rw [hper, List.count_append]
    have h0 : List.count path (get_roots cwd store) = 0 := List.count_eq_zero.2 h
    simp [h0]

/-- Witness for C6 amended: cwd `/c`, store `"/a"`, path `/b`. -/
theorem add_root_idempotent_amended_witness :
    ("/b" ∈ get_roots "/c" "/a" → add_root "/c" "/a" "/b" = "/a")
    ∧ add_root "/c" (add_root "/c" "/a" "/b") "/b" = add_root "/c" "/a" "/b"
    ∧ ("/b" ∉ get_roots "/c" "/a" →
        persistedRoots (add_root "/c" "/a" "/b") = get_roots "/c" "/a" ++ ["/b"]
        ∧ List.count "/b" (persistedRoots (add_root "/c" "/a" "/b")) = 1) :=
  add_root_idempotent_amended "/c" "/a" "/b" (by decide) (by decide) (by decide) (by decide)

/-- C9: watch registration survives failing roots: the registration loop
is total, registers exactly the roots whose `add_watch` succeeds (in
order), skips every failing root, and every succeeding root — also those
after a failing one — is still registered; no failure propagates out of
the loop. -/
theorem watch_registration_skips_failed_roots (ok : String → Bool) (roots : List String) :
    add_watches ok roots = roots.filter ok
    ∧ ∀ r, r ∈ roots → ok r = true → r ∈ add_watches ok roots := by
  have hfil : add_watches ok roots = roots.filter ok := by
    induction roots with
    | nil => rfl
    | cons a l ih => cases h : ok a <;> simp [add_watches, h, ih]
  refine ⟨hfil, fun r hr hok => ?_⟩
  rw [hfil]
  exact List.mem_filter.2 ⟨hr, hok⟩

/-- Witness for C9: the root `/gone` fails to register, `/figs` and
`/more` (which comes after the failure) are both registered. -/
theorem watch_registration_skips_failed_roots_witness :
    add_watches (fun r => r != "/gone") ["/figs", "/gone", "/more"]
      = List.filter (fun r => r != "/gone") ["/figs", "/gone", "/more"]
    ∧ "/more" ∈ add_watches (fun r => r != "/gone") ["/figs", "/gone", "/more"] :=
  ⟨(watch_registration_skips_failed_roots (fun r => r != "/gone")
      ["/figs", "/gone", "/more"]).1,
   (watch_registration_skips_failed_roots (fun r => r != "/gone")
      ["/figs", "/gone", "/more"]).2 "/more" (by decide) (by decide)⟩
